import Mathlib

/-!
Verification development for the bittracker transaction-to-graph pipeline
(`app.py`, class `EnhancedBitcoinExplorer`).

Modelling conventions:
* Python floats (BTC amounts obtained by dividing satoshi integers by 1e8)
  are modelled as exact rationals `ℚ`.
* A missing dictionary key accessed with `.get(k, d)` is modelled with
  `Option` plus `Option.getD`; a key accessed with `[...]` whose absence
  raises `KeyError` is modelled with `Option` and explicit failure
  propagation (`Option` result of the processing function, mirroring the
  `try/except` in `get_address_transactions` that turns any exception into
  `None` for the whole batch).
* `set(...)` cardinalities (`len(unique_input_addresses)`) are modelled with
  `List.dedup` length.
* The networkx `DiGraph` plus the `edge_data` defaultdict are modelled as a
  `GraphState`: a total function from node name to optional node type, and a
  total function from ordered address pair to an edge accumulator whose
  default is the defaultdict default `{'amount': 0, 'count': 0, 'txs': []}`
  (with no direction yet).
-/

/-- One normalized transaction leg: `{'address': ..., 'value': ..., 'type': ...}`
(as appended to `tx_data['inputs']` / `tx_data['outputs']` in
`process_transactions_enhanced`). -/
structure Leg where
  address : String
  value : ℚ
  legType : String
  deriving Repr, DecidableEq

/-- The `prevout` object optionally carried by a raw input
(`vin['prevout']`), with its optional fields read via `.get`. -/
structure RawPrevout where
  scriptpubkey_address : Option String
  value : Option ℕ
  scriptpubkey_type : Option String
  deriving Repr, DecidableEq

/-- A raw transaction input; `prevout = none` models a `vin` entry without a
`'prevout'` key (the code guards with `if 'prevout' in vin`). -/
structure RawVin where
  prevout : Option RawPrevout
  deriving Repr, DecidableEq

/-- A raw transaction output with optional fields read via `.get`. -/
structure RawVout where
  scriptpubkey_address : Option String
  value : Option ℕ
  scriptpubkey_type : Option String
  deriving Repr, DecidableEq

/-- The raw `status` object: `confirmed` flag, optional block height and
block time. -/
structure RawStatus where
  confirmed : Bool
  block_height : Option ℕ
  block_time : Option ℕ
  deriving Repr, DecidableEq

/-- One raw transaction as consumed by `process_transactions_enhanced`.
`txid = none` models a record missing the required `'txid'` key (the code
accesses `tx['txid']`, raising `KeyError`). -/
structure RawTx where
  txid : Option String
  status : Option RawStatus
  fee : Option ℕ
  vin : List RawVin
  vout : List RawVout
  deriving Repr, DecidableEq

/-- The normalized transaction dictionary `tx_data` built by
`process_transactions_enhanced`. -/
structure ProcessedTx where
  txid : String
  block_height : ℕ
  confirmations : ℕ
  time : String
  raw_time : ℕ
  fee : ℚ
  inputs : List Leg
  outputs : List Leg
  amount_change : ℚ
  category : String
  risk_score : ℕ
  deriving Repr, DecidableEq

/-- `categorize_transaction`: pattern rules applied first-match-wins over the
distinct-address cardinalities and value totals. -/
def categorize_transaction (inputAddrCard outputAddrCard : ℕ)
    (input_val output_val : ℚ) : String :=
  if inputAddrCard = 1 ∧ outputAddrCard = 2 then "simple_payment"
  else if inputAddrCard > 10 ∨ outputAddrCard > 10 then "exchange_batch"
  else if |input_val - output_val| < 1 / 100000 then "consolidation"
  else if outputAddrCard > 50 then "mixing_suspicious"
  else "standard"

/-- `calculate_risk_score`: sum of bonuses, capped at 5 via `min(score, 5)`. -/
def calculate_risk_score (category : String) (outputLegCount : ℕ)
    (fee : ℚ) (confirmations : ℕ) : ℕ :=
  let score0 : ℕ := 0
  let score1 := if category = "mixing_suspicious" then score0 + 3 else score0
  let score2 := if outputLegCount > 20 then score1 + 2 else score1
  let score3 := if fee > 1 / 1000 then score2 + 1 else score2
  let score4 := if confirmations = 0 then score3 + 1 else score3
  min score4 5

/-- `get_confirmations`: 0 when not confirmed, else
`max(0, 800000 - block_height)` (estimated against a hard-coded reference
height); `Nat` truncated subtraction models the `max(0, ...)`. -/
def get_confirmations (status : Option RawStatus) : ℕ :=
  if ¬((status.map (·.confirmed)).getD false) then 0
  else 800000 - ((status.bind (·.block_height)).getD 800000)

/-- `format_timestamp`: relative label tiers; 0 means unconfirmed.
Calendar-day difference and `HH:MM` formatting are rendered from epoch
arithmetic in UTC. -/
def format_timestamp (now ts : ℕ) : String :=
  if ts = 0 then "Unconfirmed"
  else
    let days := (now - ts) / 86400
    let hhmm := toString ((ts % 86400) / 3600) ++ ":" ++ toString ((ts % 3600) / 60)
    if days = 0 then "Today " ++ hhmm
    else if days = 1 then "Yesterday " ++ hhmm
    else if days < 7 then toString days ++ " days ago"
    else toString (ts / 86400) ++ " " ++ hhmm

/-- The leg recorded for a raw input carrying a `prevout`
(`process_transactions_enhanced`, input loop body): address defaults to
`"Unknown"`, satoshi value divided by 1e8, script type defaults to
`"unknown"`. -/
def vinLeg (p : RawPrevout) : Leg :=
  { address := p.scriptpubkey_address.getD "Unknown",
    value := (p.value.getD 0 : ℚ) / 100000000,
    legType := p.scriptpubkey_type.getD "unknown" }

/-- The leg recorded for a raw output
(`process_transactions_enhanced`, output loop body). -/
def voutLeg (v : RawVout) : Leg :=
  { address := v.scriptpubkey_address.getD "Unknown",
    value := (v.value.getD 0 : ℚ) / 100000000,
    legType := v.scriptpubkey_type.getD "unknown" }

/-- The recorded input legs: every `vin` with a `'prevout'` key contributes
one leg, in order; a `vin` without `prevout` is skipped by the
`if 'prevout' in vin` guard. -/
def inputLegs (tx : RawTx) : List Leg :=
  tx.vin.filterMap (fun vin => vin.prevout.map vinLeg)

/-- The recorded output legs: every `vout` contributes one leg, in order. -/
def outputLegs (tx : RawTx) : List Leg :=
  tx.vout.map voutLeg

/-- Distinct addresses of a leg list (`set()` accumulation), as a
deduplicated list. -/
def uniqueAddresses (legs : List Leg) : List String :=
  (legs.map (·.address)).dedup

/-- Total value of a leg list (`total_input_value` / `total_output_value`
accumulators). -/
def totalValue (legs : List Leg) : ℚ :=
  (legs.map (·.value)).sum

/-- `amount_change` accumulation: add output-leg values whose address equals
the subject, subtract input-leg values whose address equals the subject. -/
def amountChange (main_address : String) (ins outs : List Leg) : ℚ :=
  ((outs.filter (·.address = main_address)).map (·.value)).sum
    - ((ins.filter (·.address = main_address)).map (·.value)).sum

/-- The body of the `for tx in transactions` loop of
`process_transactions_enhanced` for one raw transaction: `none` models the
`KeyError` raised by `tx['txid']` when the record is missing that required
field. `now` is the injected clock used by `format_timestamp`. -/
def process_one (main_address : String) (now : ℕ) (tx : RawTx) :
    Option ProcessedTx :=
  match tx.txid with
  | none => none
  | some id =>
    let ins := inputLegs tx
    let outs := outputLegs tx
    let category := categorize_transaction
      (uniqueAddresses ins).length (uniqueAddresses outs).length
      (totalValue ins) (totalValue outs)
    let fee : ℚ := (tx.fee.getD 0 : ℚ) / 100000000
    let confirmations := get_confirmations tx.status
    some
      { txid := id,
        block_height := (tx.status.bind (·.block_height)).getD 0,
        confirmations := confirmations,
        time := format_timestamp now ((tx.status.bind (·.block_time)).getD 0),
        raw_time := (tx.status.bind (·.block_time)).getD 0,
        fee := fee,
        inputs := ins,
        outputs := outs,
        amount_change := amountChange main_address ins outs,
        category := category,
        risk_score := calculate_risk_score category outs.length fee confirmations }

/-- `process_transactions_enhanced` as observed through
`get_address_transactions`: the loop has no per-transaction error handling,
so the first record missing `'txid'` raises, the enclosing `try/except`
catches it, and the whole batch comes back as `None`. -/
def process_transactions_enhanced (main_address : String) (now : ℕ)
    (transactions : List RawTx) : Option (List ProcessedTx) :=
  match transactions with
  | [] => some []
  | tx :: rest =>
    match process_one main_address now tx with
    | none => none
    | some p =>
      match process_transactions_enhanced main_address now rest with
      | none => none
      | some ps => some (p :: ps)

/-- The candidate list of `find_primary_address`: legs whose address is
neither the subject nor `"Unknown"`. -/
def candidates (addr_list : List Leg) (main_address : String) : List Leg :=
  addr_list.filter (fun item => item.address ≠ main_address ∧ item.address ≠ "Unknown")

/-- Python `max(candidates, key=lambda x: x.value)`: keeps the first
maximal element, replacing only on strictly greater value. -/
def maxByValue (c : Leg) (cs : List Leg) : Leg :=
  cs.foldl (fun best x => if x.value > best.value then x else best) c

/-- `find_primary_address`: `none` models the `return None` on an empty
candidate list; otherwise the address of the value-maximal candidate
(first occurrence wins ties). -/
def find_primary_address (addr_list : List Leg) (main_address : String) :
    Option String :=
  match candidates addr_list main_address with
  | [] => none
  | c :: cs => some (maxByValue c cs).address

/-- The per-edge accumulator of the `edge_data` defaultdict; `direction` is
`none` until the first contribution sets it. -/
structure EdgeAcc where
  amount : ℚ
  count : ℕ
  txs : List ProcessedTx
  direction : Option String
  deriving Repr, DecidableEq

/-- The defaultdict default `{'amount': 0, 'count': 0, 'txs': []}`. -/
def EdgeAcc.init : EdgeAcc := ⟨0, 0, [], none⟩

/-- The graph under construction: node types keyed by address (the
networkx node set, `none` = absent) and the `edge_data` accumulator keyed
by ordered `(from, to)` address pair. -/
structure GraphState where
  nodeType : String → Option String
  edges : String × String → EdgeAcc

/-- The graph right after `G.add_node(address, node_type='main', ...)`:
only the subject node, no edge contributions. -/
def initialGraph (address : String) : GraphState :=
  { nodeType := fun a => if a = address then some "main" else none,
    edges := fun _ => EdgeAcc.init }

/-- Merge one contributing transaction into the accumulator of one edge key:
`amount += abs(net_change)`, `count += 1`, append the transaction, set the
direction. -/
def mergeEdge (edges : String × String → EdgeAcc) (key : String × String)
    (tx : ProcessedTx) (dir : String) : String × String → EdgeAcc :=
  fun k =>
    if k = key then
      let e := edges key
      { amount := e.amount + |tx.amount_change|,
        count := e.count + 1,
        txs := e.txs ++ [tx],
        direction := some dir }
    else edges k

/-- The body of the aggregation loop of `create_enhanced_transaction_graph`
for one transaction: skip dust, pick the counterparty by sign of
`net_change`, and merge into the keyed edge while adding the counterparty
node. The Python truthiness test `if primary_source:` also rejects the
empty string. -/
def graphStep (address : String) (st : GraphState) (tx : ProcessedTx) :
    GraphState :=
  let net := tx.amount_change
  if |net| < 1 / 100000000 then st
  else if net > 0 then
    match find_primary_address tx.inputs address with
    | none => st
    | some src =>
      if src = "" then st
      else
        { nodeType := fun a => if a = src then some "input" else st.nodeType a,
          edges := mergeEdge st.edges (src, address) tx "incoming" }
  else
    match find_primary_address tx.outputs address with
    | none => st
    | some dst =>
      if dst = "" then st
      else
        { nodeType := fun a => if a = dst then some "output" else st.nodeType a,
          edges := mergeEdge st.edges (address, dst) tx "outgoing" }

/-- The full aggregation fold over the (already time-filtered) transaction
sequence. -/
def foldGraph (address : String) (txs : List ProcessedTx) : GraphState :=
  txs.foldl (graphStep address) (initialGraph address)

/-- The time filter at the top of `create_enhanced_transaction_graph`:
`if time_filter:` (so a 0-day filter is falsy and disables filtering), keep
transactions with `raw_time > now - time_filter*24*3600`. `now` is the
`time.time()` float, modelled as a rational. -/
def timeFiltered (now : ℚ) (time_filter : ℕ) (txs : List ProcessedTx) :
    List ProcessedTx :=
  if time_filter ≠ 0 then
    txs.filter (fun tx => (tx.raw_time : ℚ) > now - (time_filter * 24 * 3600 : ℕ))
  else txs

/-- Which edge key one transaction is routed to, if any: the derived
per-transaction routing function of the aggregation loop (dust and
missing/falsy counterparties route nowhere). -/
def route (address : String) (tx : ProcessedTx) : Option (String × String) :=
  if |tx.amount_change| < 1 / 100000000 then none
  else if tx.amount_change > 0 then
    match find_primary_address tx.inputs address with
    | none => none
    | some src => if src = "" then none else some (src, address)
  else
    match find_primary_address tx.outputs address with
    | none => none
    | some dst => if dst = "" then none else some (address, dst)

/-! ### Helper lemmas -/

lemma calculate_risk_score_eq (c : String) (n : ℕ) (f : ℚ) (k : ℕ) :
    calculate_risk_score c n f k =
      min ((if c = "mixing_suspicious" then 3 else 0) + (if n > 20 then 2 else 0)
        + (if f > 1 / 1000 then 1 else 0) + (if k = 0 then 1 else 0)) 5 := by
  simp only [calculate_risk_score]
  split_ifs <;> rfl

lemma process_one_some (main : String) (now : ℕ) (raw : RawTx) (ptx : ProcessedTx)
    (hp : process_one main now raw = some ptx) :
    ptx.inputs = inputLegs raw ∧ ptx.outputs = outputLegs raw ∧
    ptx.fee = (raw.fee.getD 0 : ℚ) / 100000000 ∧
    ptx.confirmations = get_confirmations raw.status ∧
    ptx.category = categorize_transaction
      (uniqueAddresses (inputLegs raw)).length (uniqueAddresses (outputLegs raw)).length
      (totalValue (inputLegs raw)) (totalValue (outputLegs raw)) ∧
    ptx.risk_score = calculate_risk_score ptx.category (outputLegs raw).length
      ptx.fee ptx.confirmations := by
  cases h : raw.txid with
  | none => simp [process_one, h] at hp
  | some id =>
    simp only [process_one, h] at hp
    obtain rfl := Option.some.inj hp
    exact ⟨rfl, rfl, rfl, rfl, rfl, rfl⟩

lemma maxByValue_cons (c x : Leg) (xs : List Leg) :
    maxByValue c (x :: xs) = maxByValue (if x.value > c.value then x else c) xs := rfl

lemma le_maxByValue_value (c : Leg) (cs : List Leg) :
    c.value ≤ (maxByValue c cs).value := by
  induction cs generalizing c with
  | nil => exact le_refl _
  | cons x xs ih =>
    rw [maxByValue_cons]
    by_cases h : x.value > c.value
    · rw [if_pos h]
      exact le_of_lt (lt_of_lt_of_le h (ih x))
    · rw [if_neg h]
      exact ih c

lemma maxByValue_spec (c : Leg) (cs : List Leg) :
    ∃ pre post, c :: cs = pre ++ maxByValue c cs :: post ∧
      (∀ x ∈ pre, x.value < (maxByValue c cs).value) ∧
      (∀ x ∈ post, x.value ≤ (maxByValue c cs).value) := by
  induction cs generalizing c with
  | nil => exact ⟨[], [], rfl, by simp, by simp⟩
  | cons x xs ih =>
    rw [maxByValue_cons]
    by_cases h : x.value > c.value
    · rw [if_pos h]
      obtain ⟨pre, post, heq, hpre, hpost⟩ := ih x
      refine ⟨c :: pre, post, ?_, ?_, hpost⟩
      · simpa using heq
      · intro y hy
        rcases List.mem_cons.mp hy with rfl | hy
        · exact lt_of_lt_of_le h (le_maxByValue_value x xs)
        · exact hpre y hy
    · rw [if_neg h]
      obtain ⟨pre, post, heq, hpre, hpost⟩ := ih c
      cases pre with
      | nil =>
        simp only [List.nil_append, List.cons.injEq] at heq
        obtain ⟨hc, hxs⟩ := heq
        refine ⟨[], x :: post, ?_, by simp, ?_⟩
        · rw [List.nil_append, ← hc, ← hxs]
        · intro y hy
          rcases List.mem_cons.mp hy with rfl | hy
          · rw [← hc]; exact le_of_not_lt h
          · exact hpost y hy
      | cons p ps =>
        simp only [List.cons_append, List.cons.injEq] at heq
        obtain ⟨hcp, hxs⟩ := heq
        subst hcp
        have hcm : c.value < (maxByValue c xs).value :=
          hpre c (List.mem_cons_self c ps)
        refine ⟨c :: x :: ps, post, ?_, ?_, hpost⟩
        · rw [List.cons_append, List.cons_append, ← hxs]
        · intro y hy
          rcases List.mem_cons.mp hy with rfl | hy
          · exact hcm
          · rcases List.mem_cons.mp hy with rfl | hy
            · exact lt_of_le_of_lt (le_of_not_lt h) hcm
            · exact hpre y (List.mem_cons_of_mem c hy)

lemma maxByValue_mem (c : Leg) (cs : List Leg) : maxByValue c cs ∈ c :: cs := by
  obtain ⟨pre, post, heq, -, -⟩ := maxByValue_spec c cs
  rw [heq]
  simp

lemma find_primary_address_some (l : List Leg) (m a : String)
    (h : find_primary_address l m = some a) : a ≠ m ∧ a ≠ "Unknown" := by
  unfold find_primary_address at h
  cases hc : candidates l m with
  | nil => rw [hc] at h; cases h
  | cons c cs =>
    rw [hc] at h
    obtain rfl : (maxByValue c cs).address = a := Option.some.inj h
    have hmem : maxByValue c cs ∈ candidates l m := by
      rw [hc]; exact maxByValue_mem c cs
    simp only [candidates, List.mem_filter, decide_eq_true_eq] at hmem
    exact hmem.2

lemma mergeEdge_same (edges : String × String → EdgeAcc) (key : String × String)
    (tx : ProcessedTx) (dir : String) :
    mergeEdge edges key tx dir key =
      { amount := (edges key).amount + |tx.amount_change|,
        count := (edges key).count + 1,
        txs := (edges key).txs ++ [tx],
        direction := some dir } := by
  simp [mergeEdge]

lemma mergeEdge_other (edges : String × String → EdgeAcc) (key k : String × String)
    (tx : ProcessedTx) (dir : String) (h : k ≠ key) :
    mergeEdge edges key tx dir k = edges k := by
  simp [mergeEdge, h]

lemma inputLegs_length (tx : RawTx) :
    (inputLegs tx).length = (tx.vin.filter (fun v => v.prevout.isSome)).length := by
  unfold inputLegs
  induction tx.vin with
  | nil => rfl
  | cons v vs ih =>
    cases h : v.prevout <;> simp [List.filterMap_cons, List.filter_cons, h, ih]

lemma process_one_isSome (m : String) (n : ℕ) (tx : RawTx) :
    (process_one m n tx).isSome = tx.txid.isSome := by
  cases h : tx.txid <;> simp [process_one, h]

lemma graphStep_dust (address : String) (st : GraphState) (tx : ProcessedTx)
    (h : |tx.amount_change| < 1 / 100000000) : graphStep address st tx = st := by
  simp only [graphStep]
  rw [if_pos h]

lemma graphStep_edges_none (address : String) (st : GraphState) (tx : ProcessedTx)
    (h : route address tx = none) : (graphStep address st tx).edges = st.edges := by
  simp only [graphStep, route] at h ⊢
  by_cases hd : |tx.amount_change| < 1 / 100000000
  · rw [if_pos hd]
  · rw [if_neg hd] at h ⊢
    by_cases hpos : tx.amount_change > 0
    · rw [if_pos hpos] at h ⊢
      cases hf : find_primary_address tx.inputs address with
      | none => simp [hf]
      | some src =>
        simp only [hf] at h ⊢
        by_cases hs : src = ""
        · simp [hs]
        · simp [hs] at h
    · rw [if_neg hpos] at h ⊢
      cases hf : find_primary_address tx.outputs address with
      | none => simp [hf]
      | some dst =>
        simp only [hf] at h ⊢
        by_cases hs : dst = ""
        · simp [hs]
        · simp [hs] at h

lemma graphStep_edges_some (address : String) (st : GraphState) (tx : ProcessedTx)
    (key : String × String) (h : route address tx = some key) :
    ∃ dir, (graphStep address st tx).edges = mergeEdge st.edges key tx dir ∧
      ((key.2 = address ∧ key.1 ≠ address ∧ dir = "incoming") ∨
       (key.1 = address ∧ key.2 ≠ address ∧ dir = "outgoing")) := by
  simp only [graphStep, route] at h ⊢
  by_cases hd : |tx.amount_change| < 1 / 100000000
  · rw [if_pos hd] at h; cases h
  · rw [if_neg hd] at h ⊢
    by_cases hpos : tx.amount_change > 0
    · rw [if_pos hpos] at h ⊢
      cases hf : find_primary_address tx.inputs address with
      | none => rw [hf] at h; cases h
      | some src =>
        simp only [hf] at h ⊢
        by_cases hs : src = ""
        · simp [hs] at h
        · rw [if_neg hs] at h ⊢
          obtain rfl := Option.some.inj h
          exact ⟨"incoming", rfl,
            Or.inl ⟨rfl, (find_primary_address_some tx.inputs address src hf).1, rfl⟩⟩
    · rw [if_neg hpos] at h ⊢
      cases hf : find_primary_address tx.outputs address with
      | none => rw [hf] at h; cases h
      | some dst =>
        simp only [hf] at h ⊢
        by_cases hs : dst = ""
        · simp [hs] at h
        · rw [if_neg hs] at h ⊢
          obtain rfl := Option.some.inj h
          refine ⟨"outgoing", rfl,
            Or.inr ⟨rfl, fun hc => ?_, rfl⟩⟩
          exact (find_primary_address_some tx.outputs address dst hf).1 hc

lemma graphStep_amount_count (address : String) (st : GraphState) (tx : ProcessedTx)
    (k : String × String) :
    ((graphStep address st tx).edges k).amount
        = (st.edges k).amount + (if route address tx = some k then |tx.amount_change| else 0) ∧
    ((graphStep address st tx).edges k).count
        = (st.edges k).count + (if route address tx = some k then 1 else 0) := by
  cases hr : route address tx with
  | none => rw [graphStep_edges_none address st tx hr]; simp
  | some key =>
    obtain ⟨dir, hed, -⟩ := graphStep_edges_some address st tx key hr
    rw [hed]
    by_cases hk : k = key
    · subst hk
      rw [mergeEdge_same]
      simp
    · rw [mergeEdge_other _ _ _ _ _ hk]
      have : ¬(some key = some k) := fun hc => hk (Option.some.inj hc).symm
      simp [this]

lemma fold_amount_count (address : String) (txs : List ProcessedTx)
    (st : GraphState) (k : String × String) :
    (((txs.foldl (graphStep address) st).edges k).amount
        = (st.edges k).amount
          + ((txs.filter (fun tx => route address tx = some k)).map
              (fun tx => |tx.amount_change|)).sum) ∧
    (((txs.foldl (graphStep address) st).edges k).count
        = (st.edges k).count
          + (txs.filter (fun tx => route address tx = some k)).length) := by
  induction txs generalizing st with
  | nil => simp
  | cons tx rest ih =>
    rw [List.foldl_cons]
    obtain ⟨iha, ihc⟩ := ih (graphStep address st tx)
    obtain ⟨ha, hc⟩ := graphStep_amount_count address st tx k
    constructor
    · rw [iha, ha, List.filter_cons]
      by_cases hr : route address tx = some k
      · simp [hr, add_assoc]
      · simp [hr]
    · rw [ihc, hc, List.filter_cons]
      by_cases hr : route address tx = some k
      · simp [hr, add_assoc, Nat.add_comm 1]
      · simp [hr]

lemma fold_edge_endpoints (address : String) (txs : List ProcessedTx)
    (st : GraphState)
    (h : ∀ k : String × String, 0 < (st.edges k).count →
      (k.2 = address ∧ k.1 ≠ address ∧ (st.edges k).direction = some "incoming") ∨
      (k.1 = address ∧ k.2 ≠ address ∧ (st.edges k).direction = some "outgoing")) :
    ∀ k : String × String, 0 < ((txs.foldl (graphStep address) st).edges k).count →
      (k.2 = address ∧ k.1 ≠ address ∧
        ((txs.foldl (graphStep address) st).edges k).direction = some "incoming") ∨
      (k.1 = address ∧ k.2 ≠ address ∧
        ((txs.foldl (graphStep address) st).edges k).direction = some "outgoing") := by
  induction txs generalizing st with
  | nil => exact h
  | cons tx rest ih =>
    rw [List.foldl_cons]
    apply ih
    intro k hk
    cases hr : route address tx with
    | none =>
      rw [graphStep_edges_none address st tx hr] at hk ⊢
      exact h k hk
    | some key =>
      obtain ⟨dir, hed, hdir⟩ := graphStep_edges_some address st tx key hr
      rw [hed] at hk ⊢
      by_cases hkk : k = key
      · subst hkk
        rw [mergeEdge_same]
        rcases hdir with ⟨h1, h2, rfl⟩ | ⟨h1, h2, rfl⟩
        · exact Or.inl ⟨h1, h2, rfl⟩
        · exact Or.inr ⟨h1, h2, rfl⟩
      · rw [mergeEdge_other _ _ _ _ _ hkk] at hk ⊢
        exact h k hk

lemma process_batch_fails (main : String) (now : ℕ) (txs : List RawTx)
    (h : ∃ tx ∈ txs, tx.txid = none) :
    process_transactions_enhanced main now txs = none := by
  induction txs with
  | nil => obtain ⟨tx, htx, -⟩ := h; cases htx
  | cons t rest ih =>
    obtain ⟨tx, htx, hnone⟩ := h
    rcases List.mem_cons.mp htx with rfl | hmem
    · simp [process_transactions_enhanced, process_one, hnone]
    · cases hp : process_one main now t with
      | none => simp [process_transactions_enhanced, hp]
      | some p => simp [process_transactions_enhanced, hp, ih ⟨tx, hmem, hnone⟩]

lemma process_batch_succeeds (main : String) (now : ℕ) (txs : List RawTx)
    (h : ∀ tx ∈ txs, tx.txid.isSome) :
    (process_transactions_enhanced main now txs).isSome := by
  induction txs with
  | nil => simp [process_transactions_enhanced]
  | cons t rest ih =>
    have ht : (process_one main now t).isSome := by
      rw [process_one_isSome]
      exact h t (List.mem_cons_self t rest)
    cases hp : process_one main now t with
    | none => rw [hp] at ht; cases ht
    | some p =>
      have hrest := ih (fun tx hm => h tx (List.mem_cons_of_mem t hm))
      cases hr : process_transactions_enhanced main now rest with
      | none => rw [hr] at hrest; cases hrest
      | some ps => simp [process_transactions_enhanced, hp, hr]

/-! ### Concrete example inputs -/

/-- A well-formed raw transaction: one resolved input from `"a"`,
one output paying the subject `"S"`. -/
def rawGood : RawTx :=
  { txid := some "good", status := some ⟨true, some 700000, some 1000⟩,
    fee := some 100,
    vin := [⟨some ⟨some "a", some 100000000, some "p2pkh"⟩⟩],
    vout := [⟨some "S", some 99000000, some "p2pkh"⟩] }

/-- A raw transaction record missing the required `txid` field. -/
def rawBad : RawTx :=
  { txid := none, status := none, fee := some 100,
    vin := [⟨some ⟨some "a", some 100000000, some "p2pkh"⟩⟩],
    vout := [⟨some "S", some 99000000, some "p2pkh"⟩] }

/-- 60 outputs with pairwise distinct addresses. -/
def mixVouts : List RawVout :=
  (List.range 60).map (fun i => ⟨some ("o" ++ toString i), some 100000000, some "p2pkh"⟩)

/-- A confirmed raw transaction with one distinct input address and 60
distinct output addresses, zero fee. -/
def rawMix : RawTx :=
  { txid := some "mix", status := some ⟨true, some 700000, some 1000⟩,
    fee := some 0,
    vin := [⟨some ⟨some "a", some 6100000000, some "p2pkh"⟩⟩],
    vout := mixVouts }

/-- A raw transaction whose single input has no `prevout` data. -/
def rawNoPrev : RawTx :=
  { txid := some "noprev", status := none, fee := none,
    vin := [⟨none⟩],
    vout := [⟨some "S", some 100, some "p2pkh"⟩] }

/-- An unconfirmed normalized transaction (`raw_time = 0`) with a non-dust
net change. -/
def txUnconf : ProcessedTx :=
  { txid := "u", block_height := 0, confirmations := 0, time := "Unconfirmed",
    raw_time := 0, fee := 0, inputs := [⟨"x", 1, "p2pkh"⟩], outputs := [],
    amount_change := 1, category := "standard", risk_score := 1 }

/-- A normalized transaction whose net change is dust
(`|amount_change| = 0.5e-8 < 1e-8`). -/
def txDust : ProcessedTx :=
  { txid := "d", block_height := 1, confirmations := 3, time := "t",
    raw_time := 5, fee := 0, inputs := [⟨"x", 1, "p2pkh"⟩], outputs := [],
    amount_change := 1 / 200000000, category := "standard", risk_score := 0 }

/-- First-match-wins: once the distinct output-address count exceeds ten,
`categorize_transaction` returns `exchange_batch` whatever the value totals
are. -/
lemma categorize_outCard_gt10 (inCard outCard : ℕ) (iv ov : ℚ)
    (h1 : ¬(inCard = 1 ∧ outCard = 2)) (h2 : 10 < outCard) :
    categorize_transaction inCard outCard iv ov = "exchange_batch" := by
  unfold categorize_transaction
  rw [if_neg h1, if_pos (Or.inr h2)]

/-! ### Claim theorems -/

/-- C2, counterexample: a transaction with three distinct input and three
distinct output addresses and a value imbalance of exactly 1e-6 (which is
not below 1e-8) is still categorized `consolidation` by the code, because
the code threshold is `0.00001` (1e-5), not 1e-8 as the claim states. -/
theorem C2_counterexample :
    categorize_transaction 3 3 1 (1 - 1 / 1000000) = "consolidation" ∧
    ¬(|(1 : ℚ) - (1 - 1 / 1000000)| < 1 / 100000000) ∧
    ¬((3 : ℕ) = 1 ∧ (3 : ℕ) = 2) ∧ ¬((3 : ℕ) > 10 ∨ (3 : ℕ) > 10) := by
  refine ⟨?_, ?_, by decide, by decide⟩
  · unfold categorize_transaction
    rw [if_neg (by decide : ¬((3 : ℕ) = 1 ∧ (3 : ℕ) = 2)),
        if_neg (by decide : ¬((3 : ℕ) > 10 ∨ (3 : ℕ) > 10)),
        if_pos]
    rw [show (1 : ℚ) - (1 - 1 / 1000000) = 1 / 1000000 by norm_num,
        abs_of_pos (by norm_num)]
    norm_num
  · rw [show (1 : ℚ) - (1 - 1 / 1000000) = 1 / 1000000 by norm_num,
        abs_of_pos (by norm_num)]
    norm_num

/-- C2, amended: for every transaction that matches neither the
`simple_payment` rule nor the `exchange_batch` rule, the category is
`consolidation` exactly when the absolute difference between total input
and total output value is below 1e-5 (`0.00001`), not 1e-8. -/
theorem C2_holds (inCard outCard : ℕ) (iv ov : ℚ)
    (h1 : ¬(inCard = 1 ∧ outCard = 2)) (h2 : ¬(inCard > 10 ∨ outCard > 10)) :
    categorize_transaction inCard outCard iv ov = "consolidation"
      ↔ |iv - ov| < 1 / 100000 := by
  unfold categorize_transaction
  rw [if_neg h1, if_neg h2]
  by_cases h3 : |iv - ov| < 1 / 100000
  · rw [if_pos h3]
    exact ⟨fun _ => h3, fun _ => rfl⟩
  · rw [if_neg h3]
    constructor
    · intro hc
      by_cases h4 : outCard > 50
      · rw [if_pos h4] at hc
        exact absurd hc (by decide)
      · rw [if_neg h4] at hc
        exact absurd hc (by decide)
    · intro hlt
      exact absurd hlt h3

/-- C2, witness for the amended theorem at a concrete non-simple,
non-batch transaction with imbalance 1e-6. -/
theorem C2_witness :
    categorize_transaction 3 3 1 (1 - 1 / 1000000) = "consolidation"
      ↔ |(1 : ℚ) - (1 - 1 / 1000000)| < 1 / 100000 :=
  C2_holds 3 3 1 (1 - 1 / 1000000) (by decide) (by decide)

/-- C6: a transaction whose net-change magnitude is below 1e-8 is skipped
by the aggregation loop: the step leaves the whole graph state (all edge
accumulators and nodes) unchanged, and folding a sequence containing it
gives the same state as folding the sequence without it. -/
theorem C6_holds (address : String) (st : GraphState)
    (l₁ l₂ : List ProcessedTx) (tx : ProcessedTx)
    (h : |tx.amount_change| < 1 / 100000000) :
    graphStep address st tx = st ∧
    List.foldl (graphStep address) st (l₁ ++ tx :: l₂)
      = List.foldl (graphStep address) st (l₁ ++ l₂) := by
  refine ⟨graphStep_dust address st tx h, ?_⟩
  rw [List.foldl_append, List.foldl_append, List.foldl_cons,
      graphStep_dust address _ tx h]

/-- C6, witness: a concrete dust transaction is a no-op for the
aggregation fold. -/
theorem C6_witness :
    |txDust.amount_change| < 1 / 100000000 ∧
    graphStep "S" (initialGraph "S") txDust = initialGraph "S" ∧
    List.foldl (graphStep "S") (initialGraph "S") ([] ++ txDust :: [])
      = List.foldl (graphStep "S") (initialGraph "S") ([] ++ []) := by
  have h : |txDust.amount_change| < 1 / 100000000 := by
    show |(1 : ℚ) / 200000000| < 1 / 100000000
    rw [abs_of_pos (by norm_num)]
    norm_num
  obtain ⟨h1, h2⟩ := C6_holds "S" (initialGraph "S") [] [] txDust h
  exact ⟨h, h1, h2⟩

/-- C7: every normalized transaction's risk score is the sum of the four
bonuses (+3 `mixing_suspicious`, +2 for more than 20 output legs, +1 for
fee above 0.001, +1 for zero confirmations) capped at 5, hence an integer
in [0,5] (scores are naturals, so never negative). -/
theorem C7_holds (main : String) (now : ℕ) (raw : RawTx) (ptx : ProcessedTx)
    (hp : process_one main now raw = some ptx) :
    ptx.risk_score ≤ 5 ∧
    ptx.risk_score =
      min ((if ptx.category = "mixing_suspicious" then 3 else 0)
        + (if ptx.outputs.length > 20 then 2 else 0)
        + (if ptx.fee > 1 / 1000 then 1 else 0)
        + (if ptx.confirmations = 0 then 1 else 0)) 5 := by
  obtain ⟨-, hout, -, -, -, hrisk⟩ := process_one_some main now raw ptx hp
  constructor
  · rw [hrisk, calculate_risk_score_eq]
    exact min_le_right _ _
  · rw [hrisk, calculate_risk_score_eq, hout]

/-- C7, witness at a concrete well-formed raw transaction. -/
theorem C7_witness :
    ∃ p, process_one "S" 0 rawGood = some p ∧ p.risk_score ≤ 5 ∧
      p.risk_score =
        min ((if p.category = "mixing_suspicious" then 3 else 0)
          + (if p.outputs.length > 20 then 2 else 0)
          + (if p.fee > 1 / 1000 then 1 else 0)
          + (if p.confirmations = 0 then 1 else 0)) 5 := by
  obtain ⟨p, hp⟩ : ∃ p, process_one "S" 0 rawGood = some p :=
    Option.isSome_iff_exists.mp (by rw [process_one_isSome]; rfl)
  exact ⟨p, hp, C7_holds "S" 0 rawGood p hp⟩

/-- C1, counterexample: the concrete transaction `rawMix` has exactly one
distinct input address and 60 distinct output addresses, yet the code
categorizes it `exchange_batch` (the `> 10` output-cardinality arm of the
`exchange_batch` rule fires before the `mixing_suspicious` rule is ever
reached) with risk score 2 (+2 for more than 20 output legs only), not
`mixing_suspicious` with risk 5. -/
theorem C1_counterexample :
    (process_one "S" 0 rawMix).map (fun p => (p.category, p.risk_score))
      = some ("exchange_batch", 2) ∧
    (uniqueAddresses (inputLegs rawMix)).length = 1 ∧
    (uniqueAddresses (outputLegs rawMix)).length = 60 ∧
    ("exchange_batch" : String) ≠ "mixing_suspicious" ∧ (2 : ℕ) ≠ 5 := by
  refine ⟨?_, by decide, by decide, by decide, by decide⟩
  obtain ⟨p, hp⟩ : ∃ p, process_one "S" 0 rawMix = some p :=
    Option.isSome_iff_exists.mp (by rw [process_one_isSome]; rfl)
  obtain ⟨-, -, hfee, hconf, hcat, hrisk⟩ := process_one_some "S" 0 rawMix p hp
  have hcat2 : p.category = "exchange_batch" := by
    rw [hcat, show (uniqueAddresses (inputLegs rawMix)).length = 1 from by decide,
        show (uniqueAddresses (outputLegs rawMix)).length = 60 from by decide]
    exact categorize_outCard_gt10 1 60 _ _ (by decide) (by decide)
  have hrisk2 : p.risk_score = 2 := by
    rw [hrisk, hcat2, calculate_risk_score_eq,
        show (outputLegs rawMix).length = 60 from by decide, hfee, hconf,
        show get_confirmations rawMix.status = 100000 from by decide]
    rw [if_neg (by decide : ¬(("exchange_batch" : String) = "mixing_suspicious")),
        if_pos (by decide : (60 : ℕ) > 20),
        if_neg (show ¬(((rawMix.fee.getD 0 : ℕ) : ℚ) / 100000000 > 1 / 1000) by
          norm_num [rawMix]),
        if_neg (by decide : ¬((100000 : ℕ) = 0))]
    decide
  rw [hp, Option.map_some', hcat2, hrisk2]

/-- C1, amended: a transaction with 60 distinct output addresses always
falls into the `exchange_batch` category (whatever its input address
count), never `mixing_suspicious`; its risk score gets +2 for more than 20
output legs but never the +3 mixing bonus, so it is at most 4 and equals 2
when the fee is at most 0.001 and the transaction is confirmed. -/
theorem C1_holds (main : String) (now : ℕ) (raw : RawTx) (ptx : ProcessedTx)
    (hp : process_one main now raw = some ptx)
    (h60 : (uniqueAddresses (outputLegs raw)).length = 60) :
    ptx.category = "exchange_batch" ∧
    ptx.category ≠ "mixing_suspicious" ∧
    ptx.risk_score ≤ 4 ∧
    (((raw.fee.getD 0 : ℕ) : ℚ) / 100000000 ≤ 1 / 1000 →
      get_confirmations raw.status ≠ 0 → ptx.risk_score = 2) := by
  obtain ⟨-, -, hfee, hconf, hcat, hrisk⟩ := process_one_some main now raw ptx hp
  have hcat2 : ptx.category = "exchange_batch" := by
    rw [hcat, h60]
    exact categorize_outCard_gt10 _ 60 _ _
      (fun hand => (by decide : (60 : ℕ) ≠ 2) hand.2) (by decide)
  have houtlen : 20 < (outputLegs raw).length := by
    have hle : (uniqueAddresses (outputLegs raw)).length ≤ (outputLegs raw).length := by
      unfold uniqueAddresses
      calc ((outputLegs raw).map (·.address)).dedup.length
          ≤ ((outputLegs raw).map (·.address)).length :=
            List.Sublist.length_le (List.dedup_sublist _)
        _ = (outputLegs raw).length := List.length_map _ _
    omega
  have hmix : ("exchange_batch" : String) ≠ "mixing_suspicious" := by decide
  have hRisk_eq : ptx.risk_score
      = min (0 + 2 + (if ptx.fee > 1 / 1000 then 1 else 0)
        + (if ptx.confirmations = 0 then 1 else 0)) 5 := by
    rw [hrisk, hcat2, calculate_risk_score_eq, if_neg hmix, if_pos houtlen]
  refine ⟨hcat2, by rw [hcat2]; exact hmix, ?_, ?_⟩
  · calc ptx.risk_score
        ≤ 0 + 2 + (if ptx.fee > 1 / 1000 then 1 else 0)
          + (if ptx.confirmations = 0 then 1 else 0) := hRisk_eq ▸ min_le_left _ _
      _ ≤ 0 + 2 + 1 + 1 := by split_ifs <;> norm_num
      _ = 4 := rfl
  · intro hf hc
    rw [hRisk_eq, if_neg (by rw [hfee]; exact not_lt.mpr hf),
        if_neg (by rw [hconf]; exact hc)]
    decide

/-- C1, witness for the amended theorem at the concrete 60-output
transaction `rawMix`. -/
theorem C1_witness :
    ∃ p, process_one "S" 0 rawMix = some p ∧ p.category = "exchange_batch" ∧
      p.category ≠ "mixing_suspicious" ∧ p.risk_score ≤ 4 ∧ p.risk_score = 2 := by
  obtain ⟨p, hp⟩ : ∃ p, process_one "S" 0 rawMix = some p :=
    Option.isSome_iff_exists.mp (by rw [process_one_isSome]; rfl)
  obtain ⟨h1, h2, h3, h4⟩ := C1_holds "S" 0 rawMix p hp (by decide)
  exact ⟨p, hp, h1, h2, h3, h4 (by norm_num [rawMix]) (by decide)⟩

/-- C3, counterexample: a batch containing one well-formed record and one
record missing `txid` yields no result at all — the whole batch is
invalidated — even though the well-formed record alone processes fine. -/
theorem C3_counterexample :
    process_transactions_enhanced "S" 0 [rawGood, rawBad] = none ∧
    (process_transactions_enhanced "S" 0 [rawGood]).isSome = true ∧
    rawBad.txid = none ∧ rawGood.txid = some "good" := by
  exact ⟨by decide, by decide, rfl, rfl⟩

/-- C3, amended: there is no per-transaction error handling — one record
missing the required `txid` field makes the whole batch fail (the
exception propagates to the batch-level handler, which returns no result),
and a batch succeeds exactly when every record carries a `txid`. -/
theorem C3_holds (main : String) (now : ℕ) (txs : List RawTx) :
    ((∃ tx ∈ txs, tx.txid = none) →
      process_transactions_enhanced main now txs = none) ∧
    ((∀ tx ∈ txs, tx.txid.isSome) →
      (process_transactions_enhanced main now txs).isSome) :=
  ⟨process_batch_fails main now txs, process_batch_succeeds main now txs⟩

/-- C3, witness: the amended theorem applied to concrete batches. -/
theorem C3_witness :
    process_transactions_enhanced "S" 0 [rawBad, rawGood] = none ∧
    (process_transactions_enhanced "S" 0 [rawGood]).isSome := by
  refine ⟨(C3_holds "S" 0 [rawBad, rawGood]).1
      ⟨rawBad, List.mem_cons_self _ _, rfl⟩,
    (C3_holds "S" 0 [rawGood]).2 ?_⟩
  intro tx htx
  simp only [List.mem_singleton] at htx
  subst htx
  rfl

/-- C4, counterexample: a raw transaction whose single input carries no
`prevout` data is processed successfully, but that input leg is dropped
entirely — it is not recorded with address `"Unknown"` — so not every
input leg appears in the normalized leg list. -/
theorem C4_counterexample :
    (process_one "S" 0 rawNoPrev).map (fun p => p.inputs.length) = some 0 ∧
    rawNoPrev.vin.length = 1 ∧
    (process_one "S" 0 rawNoPrev).isSome = true :=
  ⟨by decide, rfl, by decide⟩

/-- C4, amended: every input leg that carries `prevout` data and every
output leg is recorded regardless of ownership (a `vin` without `prevout`
is dropped); legs whose address is unresolvable are recorded as
`"Unknown"` and their values and addresses feed the totals and
distinct-address sets used for categorization, but an `"Unknown"` leg is
never selected as counterparty. -/
theorem C4_holds (main : String) (now : ℕ) (raw : RawTx) (ptx : ProcessedTx)
    (hp : process_one main now raw = some ptx) :
    ptx.inputs = inputLegs raw ∧
    ptx.outputs = outputLegs raw ∧
    ptx.inputs.length = (raw.vin.filter (fun v => v.prevout.isSome)).length ∧
    ptx.outputs.length = raw.vout.length ∧
    ptx.category = categorize_transaction (uniqueAddresses ptx.inputs).length
      (uniqueAddresses ptx.outputs).length (totalValue ptx.inputs)
      (totalValue ptx.outputs) ∧
    (∀ legs m, find_primary_address legs m ≠ some "Unknown") := by
  obtain ⟨hin, hout, -, -, hcat, -⟩ := process_one_some main now raw ptx hp
  refine ⟨hin, hout, ?_, ?_, ?_, ?_⟩
  · rw [hin]
    exact inputLegs_length raw
  · rw [hout]
    unfold outputLegs
    exact List.length_map _ _
  · rw [hcat, hin, hout]
  · intro legs m hsome
    exact (find_primary_address_some legs m "Unknown" hsome).2 rfl

/-- C4, witness: the amended theorem applied to a concrete transaction,
plus the never-a-counterparty clause at a concrete `"Unknown"` leg list. -/
theorem C4_witness :
    ∃ p, process_one "S" 0 rawGood = some p ∧ p.inputs = inputLegs rawGood ∧
      p.inputs.length = (rawGood.vin.filter (fun v => v.prevout.isSome)).length ∧
      find_primary_address [⟨"Unknown", 5, "p2pkh"⟩] "S" ≠ some "Unknown" := by
  obtain ⟨p, hp⟩ : ∃ p, process_one "S" 0 rawGood = some p :=
    Option.isSome_iff_exists.mp (by rw [process_one_isSome]; rfl)
  obtain ⟨h1, -, h3, -, -, h6⟩ := C4_holds "S" 0 rawGood p hp
  exact ⟨p, hp, h1, h3, h6 _ _⟩

/-- An incoming transaction: net change +0.5 from counterparty `"x"`. -/
def txIn1 : ProcessedTx :=
  { txid := "t1", block_height := 1, confirmations := 2, time := "a",
    raw_time := 10, fee := 0, inputs := [⟨"x", 1, "p2pkh"⟩], outputs := [],
    amount_change := 1 / 2, category := "standard", risk_score := 0 }

/-- A second incoming transaction from the same counterparty `"x"`,
net change +0.3. -/
def txIn2 : ProcessedTx :=
  { txid := "t2", block_height := 1, confirmations := 2, time := "b",
    raw_time := 20, fee := 0, inputs := [⟨"x", 2, "p2pkh"⟩], outputs := [],
    amount_change := 3 / 10, category := "standard", risk_score := 1 }

/-- An incoming transaction with no eligible input counterparty. -/
def txNoCp : ProcessedTx :=
  { txid := "n", block_height := 1, confirmations := 2, time := "c",
    raw_time := 30, fee := 0, inputs := [], outputs := [],
    amount_change := 1, category := "standard", risk_score := 0 }

/-- C5: the counterparty selector's candidate set excludes legs addressed
to the subject or `"Unknown"`; it returns no counterparty exactly when the
candidate set is empty; a returned address belongs to the candidate of
maximal value whose earlier candidates are all strictly smaller (first
occurrence wins ties); and a transaction whose selector returns no
counterparty leaves the graph state untouched (no edge). -/
theorem C5_holds (legs : List Leg) (main address : String)
    (st : GraphState) (tx : ProcessedTx) :
    (find_primary_address legs main = none ↔ candidates legs main = []) ∧
    (∀ a, find_primary_address legs main = some a →
      ∃ pre l post, candidates legs main = pre ++ l :: post ∧ l.address = a ∧
        (∀ x ∈ pre, x.value < l.value) ∧ (∀ x ∈ post, x.value ≤ l.value)) ∧
    (¬(|tx.amount_change| < 1 / 100000000) → tx.amount_change > 0 →
      find_primary_address tx.inputs address = none → graphStep address st tx = st) ∧
    (¬(|tx.amount_change| < 1 / 100000000) → ¬(tx.amount_change > 0) →
      find_primary_address tx.outputs address = none → graphStep address st tx = st) := by
  refine ⟨?_, ?_, ?_, ?_⟩
  · cases hc : candidates legs main with
    | nil => simp [find_primary_address, hc]
    | cons c cs => simp [find_primary_address, hc]
  · intro a ha
    unfold find_primary_address at ha
    cases hc : candidates legs main with
    | nil => rw [hc] at ha; cases ha
    | cons c cs =>
      rw [hc] at ha
      obtain ⟨pre, post, heq, hpre, hpost⟩ := maxByValue_spec c cs
      exact ⟨pre, maxByValue c cs, post, heq, Option.some.inj ha, hpre, hpost⟩
  · intro hd hpos hnone
    simp only [graphStep]
    rw [if_neg hd, if_pos hpos, hnone]
  · intro hd hpos hnone
    simp only [graphStep]
    rw [if_neg hd, if_neg hpos, hnone]

/-- C5, witness: a tie between `"b"` and `"c"` at value 3 is broken in
favor of the earlier `"b"`, and a concrete transaction with no eligible
counterparty contributes no edge. -/
theorem C5_witness :
    (∃ pre l post,
      candidates [⟨"a", 2, "p"⟩, ⟨"b", 3, "p"⟩, ⟨"c", 3, "p"⟩] "S" = pre ++ l :: post ∧
      l.address = "b" ∧ (∀ x ∈ pre, x.value < l.value) ∧
      (∀ x ∈ post, x.value ≤ l.value)) ∧
    graphStep "S" (initialGraph "S") txNoCp = initialGraph "S" := by
  obtain ⟨-, h2, h3, -⟩ :=
    C5_holds [⟨"a", 2, "p"⟩, ⟨"b", 3, "p"⟩, ⟨"c", 3, "p"⟩] "S" "S"
      (initialGraph "S") txNoCp
  refine ⟨h2 "b" (by rfl), h3 ?_ ?_ rfl⟩
  · rw [show txNoCp.amount_change = 1 from rfl,
        abs_of_pos (by norm_num : (0:ℚ) < 1)]
    norm_num
  · norm_num [txNoCp]

/-- C8: after folding, each edge accumulator's `amount` is the sum of
`|net_change|` over the transactions routed to its key and its `count` is
the number of such transactions; both are invariant under any reordering
(permutation) of the input transaction sequence. -/
theorem C8_holds (address : String) (txs txs' : List ProcessedTx)
    (k : String × String) (hperm : txs.Perm txs') :
    ((foldGraph address txs).edges k).amount
      = ((txs.filter (fun tx => route address tx = some k)).map
          (fun tx => |tx.amount_change|)).sum ∧
    ((foldGraph address txs).edges k).count
      = (txs.filter (fun tx => route address tx = some k)).length ∧
    ((foldGraph address txs).edges k).amount
      = ((foldGraph address txs').edges k).amount ∧
    ((foldGraph address txs).edges k).count
      = ((foldGraph address txs').edges k).count := by
  obtain ⟨ha, hc⟩ := fold_amount_count address txs (initialGraph address) k
  obtain ⟨ha', hc'⟩ := fold_amount_count address txs' (initialGraph address) k
  have hinit_a : ((initialGraph address).edges k).amount = 0 := rfl
  have hinit_c : ((initialGraph address).edges k).count = 0 := rfl
  unfold foldGraph
  refine ⟨?_, ?_, ?_, ?_⟩
  · rw [ha, hinit_a, zero_add]
  · rw [hc, hinit_c, Nat.zero_add]
  · rw [ha, ha', hinit_a, zero_add, zero_add]
    exact List.Perm.sum_eq (List.Perm.map _ (List.Perm.filter _ hperm))
  · rw [hc, hc', hinit_c, Nat.zero_add, Nat.zero_add]
    exact List.Perm.length_eq (List.Perm.filter _ hperm)

/-- C8, witness: two incoming transactions from the same counterparty, in
both orders. -/
theorem C8_witness :
    ((foldGraph "S" [txIn1, txIn2]).edges ("x", "S")).amount
      = (([txIn1, txIn2].filter
          (fun tx => route "S" tx = some ("x", "S"))).map
          (fun tx => |tx.amount_change|)).sum ∧
    ((foldGraph "S" [txIn1, txIn2]).edges ("x", "S")).count
      = ([txIn1, txIn2].filter
          (fun tx => route "S" tx = some ("x", "S"))).length ∧
    ((foldGraph "S" [txIn1, txIn2]).edges ("x", "S")).amount
      = ((foldGraph "S" [txIn2, txIn1]).edges ("x", "S")).amount ∧
    ((foldGraph "S" [txIn1, txIn2]).edges ("x", "S")).count
      = ((foldGraph "S" [txIn2, txIn1]).edges ("x", "S")).count :=
  C8_holds "S" [txIn1, txIn2] [txIn2, txIn1] ("x", "S")
    (List.Perm.swap txIn2 txIn1 [])

/-- C9, counterexample: with the concrete time filter of 30000 days and
clock 1700000000, the cutoff `now - window` is negative, so an unconfirmed
transaction (`raw_time = 0`) passes the filter instead of being
excluded. -/
theorem C9_counterexample :
    timeFiltered 1700000000 30000 [txUnconf] = [txUnconf] ∧
    txUnconf.raw_time = 0 ∧ (30000 : ℕ) ≠ 0 := by
  refine ⟨?_, rfl, by decide⟩
  unfold timeFiltered
  rw [if_pos (by decide : (30000 : ℕ) ≠ 0)]
  simp only [List.filter, txUnconf]
  norm_num

/-- C9, amended: for every non-zero time-filter window whose span in
seconds does not exceed the current clock (so the cutoff `now - window` is
non-negative), every unconfirmed transaction (`raw_time = 0`) is excluded
by the time filter before aggregation. -/
theorem C9_holds (now : ℚ) (tf : ℕ) (txs : List ProcessedTx)
    (tx : ProcessedTx) (htf : tf ≠ 0)
    (hcut : ((tf * 24 * 3600 : ℕ) : ℚ) ≤ now) (h0 : tx.raw_time = 0) :
    tx ∉ timeFiltered now tf txs := by
  unfold timeFiltered
  rw [if_pos htf]
  intro hmem
  simp only [List.mem_filter, decide_eq_true_eq] at hmem
  obtain ⟨-, hgt⟩ := hmem
  rw [h0] at hgt
  push_cast at hgt hcut
  linarith

/-- C9, witness: a one-day filter under a realistic clock excludes a
concrete unconfirmed transaction. -/
theorem C9_witness : txUnconf ∉ timeFiltered 1700000000 1 [txUnconf] :=
  C9_holds 1700000000 1 [txUnconf] txUnconf (by decide) (by norm_num) rfl

/-- C10: every edge accumulator that has received a contribution has the
subject address as exactly one endpoint of its key, and its direction is
`incoming` when the destination is the subject and `outgoing` when the
source is the subject. -/
theorem C10_holds (address : String) (txs : List ProcessedTx)
    (k : String × String) (h : 0 < ((foldGraph address txs).edges k).count) :
    (k.2 = address ∧ k.1 ≠ address ∧
      ((foldGraph address txs).edges k).direction = some "incoming") ∨
    (k.1 = address ∧ k.2 ≠ address ∧
      ((foldGraph address txs).edges k).direction = some "outgoing") := by
  unfold foldGraph at h ⊢
  exact fold_edge_endpoints address txs (initialGraph address)
    (fun k' hk' => absurd hk' (lt_irrefl 0)) k h

/-- C10, witness: a concrete incoming edge `("x", "S")` with one
contribution has the subject as destination and direction `incoming`. -/
theorem C10_witness :
    (("x", "S").2 = "S" ∧ ("x", "S").1 ≠ "S" ∧
      ((foldGraph "S" [txIn1]).edges ("x", "S")).direction = some "incoming") ∨
    (("x", "S").1 = "S" ∧ ("x", "S").2 ≠ "S" ∧
      ((foldGraph "S" [txIn1]).edges ("x", "S")).direction = some "outgoing") := by
  have hroute : route "S" txIn1 = some ("x", "S") := by
    unfold route
    rw [if_neg ?h1, if_pos ?h2]
    case h1 =>
      rw [show txIn1.amount_change = 1 / 2 from rfl,
          abs_of_pos (by norm_num : (0:ℚ) < 1 / 2)]
      norm_num
    case h2 => norm_num [txIn1]
    rfl
  refine C10_holds "S" [txIn1] ("x", "S") ?_
  have hc := (fold_amount_count "S" [txIn1] (initialGraph "S") ("x", "S")).2
  unfold foldGraph
  rw [hc]
  simp [hroute, initialGraph, EdgeAcc.init]
